import Mathlib

/-!
Verification development for the browser-based AI OCR application
(fixed-schema picking-list pipeline).  The JavaScript/TypeScript source is
shallowly embedded: JS strings are lists of characters, machine numbers are
`Int`/`Nat`, IndexedDB collections are association lists, and the
single-threaded event loop is modelled by explicit folds over settlement
sequences.
-/

namespace AiOcr

deriving instance DecidableEq for Except

/-! ## JS string primitives -/

/-- JS strings as character lists. -/
abbrev Str := List Char

/-- The character set matched by the JS regex class `\s` (which coincides
with the set stripped by `String.prototype.trim`): ASCII whitespace,
NBSP, the Unicode space separators (including the full-width space
U+3000), line/paragraph separators and the BOM. -/
def jsSpace (c : Char) : Bool :=
  c == ' ' || c == '\u0009' || c == '\u000A' || c == '\u000B' ||
  c == '\u000C' || c == '\u000D' || c == '\u00A0' || c == '\u1680' ||
  (decide ('\u2000' ≤ c) && decide (c ≤ '\u200A')) ||
  c == '\u2028' || c == '\u2029' || c == '\u202F' || c == '\u205F' ||
  c == '\u3000' || c == '\uFEFF'

/-- `String.prototype.split` with a single-character separator:
`"".split(c) = [""]`, separators at the ends produce empty pieces. -/
def splitOnChar (sep : Char) : Str → List Str
  | [] => [[]]
  | c :: rest =>
    match splitOnChar sep rest with
    | [] => [[]]
    | t :: ts => if c = sep then [] :: t :: ts else (c :: t) :: ts

/-- `String.prototype.trim`: strip `jsSpace` characters from both ends. -/
def jsTrim (s : Str) : Str :=
  ((s.dropWhile jsSpace).reverse.dropWhile jsSpace).reverse

/-- Decimal digit value. -/
def decDigit (c : Char) : Option Nat :=
  if '0' ≤ c ∧ c ≤ '9' then some (c.toNat - 48) else none

/-- Hexadecimal digit value. -/
def hexDigit (c : Char) : Option Nat :=
  if '0' ≤ c ∧ c ≤ '9' then some (c.toNat - 48)
  else if 'a' ≤ c ∧ c ≤ 'f' then some (c.toNat - 87)
  else if 'A' ≤ c ∧ c ≤ 'F' then some (c.toNat - 55)
  else none

/-- Accumulate the value of the longest digit prefix. -/
def digitsAux (dig : Char → Option Nat) (base : Nat) (acc : Nat) : Str → Nat
  | [] => acc
  | c :: rest =>
    match dig c with
    | none => acc
    | some d => digitsAux dig base (acc * base + d) rest

/-- Value of the longest digit prefix in the given digit alphabet;
`none` when no leading digit exists (JS `NaN`). -/
def digitsValue (dig : Char → Option Nat) (base : Nat) : Str → Option Nat
  | [] => none
  | c :: rest =>
    match dig c with
    | none => none
    | some d => some (digitsAux dig base d rest)

/-- JS `parseInt(s)` (radix omitted): skip leading whitespace, optional
sign, `0x`/`0X` selects base 16, longest digit prefix, `none` for `NaN`. -/
def jsParseInt (s : Str) : Option Int :=
  let s1 := s.dropWhile jsSpace
  let signed : Int × Str :=
    match s1 with
    | '-' :: rest => (-1, rest)
    | '+' :: rest => (1, rest)
    | _ => (1, s1)
  match signed.2 with
  | '0' :: 'x' :: rest => (digitsValue hexDigit 16 rest).map (fun n => signed.1 * n)
  | '0' :: 'X' :: rest => (digitsValue hexDigit 16 rest).map (fun n => signed.1 * n)
  | s2 => (digitsValue decDigit 10 s2).map (fun n => signed.1 * n)

/-- The regex replacement `.replace(/[\s　\t\r\n ]+/g, ' ')`:
every maximal run of `jsSpace` characters becomes a single ASCII space.
`prev` records whether the previously consumed character was whitespace
(i.e. whether we are inside a run whose space was already emitted). -/
def collapseWs (prev : Bool) : Str → Str
  | [] => []
  | c :: rest =>
    if jsSpace c then
      if prev then collapseWs true rest else ' ' :: collapseWs true rest
    else c :: collapseWs false rest

/-- Decimal rendering of an `Int`, as JS renders integral numbers. -/
def intRepr : Int → String
  | .ofNat n => n.repr
  | .negSucc n => "-" ++ (n + 1).repr

/-! ## Fixed-schema data model -/

/-- One (destination shop code, quantity) pair. -/
structure Distribution where
  shopCode : String
  quantity : Int
deriving DecidableEq, Repr

/-- A fixed-schema extracted item (`OCRItem` in `types.ts`). -/
structure OCRItem where
  id : String
  no : String
  janCode : String
  productName : String
  vendorProductCode : String
  size : String
  color : String
  reportedTotal : Int
  distributions : List Distribution
  calculatedTotal : Int
  isCorrect : Bool
  isVerified : Bool
  sourceFile : Option String := none
  sourceImageUrl : Option String := none
  jobId : Option String := none
  pageNumber : Option Int := none
  boundingBox : Option (List Int) := none
deriving DecidableEq, Repr

/-! ## Extraction mapping (`mapRawItemToOCRItem` in the gemini service) -/

/-- One `code:qty` segment of the distribution string.  The source
destructures `part.split(':')` into its first two components and keeps the
pair only when both are truthy (non-empty) strings. -/
def parsePair (part : Str) : Option Distribution :=
  let comps := splitOnChar ':' part
  match comps.get? 0, comps.get? 1 with
  | some shop, some qty =>
    if shop ≠ [] ∧ qty ≠ [] then
      some ⟨String.mk (jsTrim shop), (jsParseInt (jsTrim qty)).getD 0⟩
    else none
  | _, _ => none

/-- Core of the distribution-string parser: split on `'|'`, keep the
well-formed `code:qty` pairs in order. -/
def parseDistsCore (s : Str) : List Distribution :=
  (splitOnChar '|' s).filterMap parsePair

/-- Parse a `"code1:qty1|code2:qty2|..."` distribution string. -/
def parseDistributions (s : String) : List Distribution :=
  parseDistsCore s.data

/-- Core of the vendor-code cleaning: collapse whitespace runs to single
ASCII spaces, trim, and keep the last space-separated token. -/
def cleanVendorCore (v : Str) : Str :=
  if v = [] then v
  else
    match (splitOnChar ' ' (jsTrim (collapseWs false v))).getLast? with
    | some t => t
    | none => v

/-- Clean a raw vendor product code (`"0000 00 995668D"` → `"995668D"`). -/
def cleanVendorCode (v : String) : String :=
  String.mk (cleanVendorCore v.data)

/-- A raw row as returned by the extraction model (schema keys `no`,
`jan`, `name`, `vCode`, `sz`, `col`, `rTotal`, `dists`, `box_2d`). -/
structure RawItem where
  no : Option String := none
  jan : Option String := none
  name : Option String := none
  vCode : Option String := none
  sz : Option String := none
  col : Option String := none
  rTotal : Option Int := none
  dists : Option String := none
  box2d : Option (List Int) := none
deriving DecidableEq, Repr

/-- Sum of the quantities of a distribution list. -/
def distSum (l : List Distribution) : Int :=
  (l.map Distribution.quantity).sum

/-- `mapRawItemToOCRItem`: map one raw row into the internal item shape.
The random id generated by the source is passed in as `genId`. -/
def mapRawItemToOCRItem (genId : String) (item : RawItem) : OCRItem :=
  let distributions :=
    match item.dists with
    | some s => if s ≠ "" then parseDistributions s else []
    | none => []
  let reportedTotal := item.rTotal.getD 0
  let calculatedTotal := distSum distributions
  { id := genId
    no := item.no.getD ""
    janCode := item.jan.getD ""
    productName := item.name.getD ""
    vendorProductCode := cleanVendorCode (item.vCode.getD "")
    size := item.sz.getD ""
    color := item.col.getD ""
    reportedTotal := reportedTotal
    distributions := distributions
    calculatedTotal := calculatedTotal
    isCorrect := decide (calculatedTotal = reportedTotal)
    isVerified := false
    boundingBox := item.box2d }

/-! ## Jobs -/

/-- Job lifecycle status. -/
inductive JobStatus where
  | queued | converting | processing | completed | error
deriving DecidableEq, Repr

/-- A JS `File`: name, declared mime type and (opaque) binary content. -/
structure JsFile where
  name : String
  ftype : String
  blob : Nat
deriving DecidableEq, Repr

/-- A processing job (`ProcessingJob` in `types.ts`). -/
structure ProcessingJob where
  id : String
  file : JsFile
  status : JobStatus
  totalPages : Nat
  processedPages : Nat
  progressMessage : String
  errorMessage : Option String := none
  addedAt : Nat := 0
deriving DecidableEq, Repr

/-- A `Partial<ProcessingJob>` patch as passed to `updateJob`; `none`
means the key is absent from the update object.  For the optional
`errorMessage` field, `some none` models an explicit `undefined`. -/
structure JobPatch where
  id : Option String := none
  file : Option JsFile := none
  status : Option JobStatus := none
  totalPages : Option Nat := none
  processedPages : Option Nat := none
  progressMessage : Option String := none
  errorMessage : Option (Option String) := none
  addedAt : Option Nat := none
deriving DecidableEq, Repr

/-- The JS object spread `{ ...j, ...updates }`. -/
def applyJobPatch (p : JobPatch) (j : ProcessingJob) : ProcessingJob :=
  { id := p.id.getD j.id
    file := p.file.getD j.file
    status := p.status.getD j.status
    totalPages := p.totalPages.getD j.totalPages
    processedPages := p.processedPages.getD j.processedPages
    progressMessage := p.progressMessage.getD j.progressMessage
    errorMessage := p.errorMessage.getD j.errorMessage
    addedAt := p.addedAt.getD j.addedAt }

/-- A patch carrying every field of `j`, modelling the spread of a whole
job object as done by `handleRetryJob`. -/
def jobToPatch (j : ProcessingJob) : JobPatch :=
  { id := some j.id, file := some j.file, status := some j.status
    totalPages := some j.totalPages, processedPages := some j.processedPages
    progressMessage := some j.progressMessage
    errorMessage := some j.errorMessage, addedAt := some j.addedAt }

/-! ## Persistence gateway (`storageService` over IndexedDB) -/

/-- Upsert into a list keyed by `key` (IndexedDB `put` with a key path):
replace the first entry with the same key, else append. -/
def putByKey {α : Type} (key : α → String) (x : α) : List α → List α
  | [] => [x]
  | y :: rest => if key y = key x then x :: rest else y :: putByKey key x rest

/-- Upsert into an association list (IndexedDB `put` with explicit key). -/
def putAssoc (k : String) (v : Nat) : List (String × Nat) → List (String × Nat)
  | [] => [(k, v)]
  | e :: rest => if e.1 = k then (k, v) :: rest else e :: putAssoc k v rest

/-- The durable store: the three IndexedDB object stores.  Page images
are keyed by the composite string `"{jobId}_{pageIndex}"`. -/
structure Store where
  jobs : List ProcessingJob := []
  items : List OCRItem := []
  pageImages : List (String × Nat) := []
deriving DecidableEq, Repr

/-- Composite page-image key `"{jobId}_{pageIndex}"`. -/
def pageKey (jobId : String) (idx : Int) : String :=
  jobId ++ "_" ++ intRepr idx

/-- `storageService.getPageImage`. -/
def getPageImage (imgs : List (String × Nat)) (jobId : String) (idx : Int) : Option Nat :=
  ((imgs.find? (fun e => e.1 = pageKey jobId idx)).map Prod.snd)

/-- `storageService.savePageImage`. -/
def savePageImage (s : Store) (jobId : String) (idx : Int) (blob : Nat) : Store :=
  { s with pageImages := putAssoc (pageKey jobId idx) blob s.pageImages }

/-- `storageService.saveJob`. -/
def saveJobStore (s : Store) (j : ProcessingJob) : Store :=
  { s with jobs := putByKey ProcessingJob.id j s.jobs }

/-- Strip the transient blob-URL handle before a durable write
(`const { sourceImageUrl, ...itemToSave } = item`). -/
def stripItem (it : OCRItem) : OCRItem :=
  { it with sourceImageUrl := none }

/-- `storageService.saveItem`: strip the handle, then upsert by id. -/
def saveItemStore (s : Store) (it : OCRItem) : Store :=
  { s with items := putByKey OCRItem.id (stripItem it) s.items }

/-- `storageService.saveItems`: one transaction of sequential puts. -/
def saveItemsStore (s : Store) (its : List OCRItem) : Store :=
  its.foldl saveItemStore s

/-- `storageService.deleteItemsByJobId`: collect the ids of the items
tagged with this job, then delete those ids. -/
def deleteItemsByJobIdStore (s : Store) (jobId : String) : Store :=
  let ids := (s.items.filter (fun i => i.jobId = some jobId)).map OCRItem.id
  { s with items := s.items.filter (fun i => ¬ i.id ∈ ids) }

/-- `storageService.deleteItemsByIds`. -/
def deleteItemsByIdsStore (s : Store) (ids : List String) : Store :=
  { s with items := s.items.filter (fun i => ¬ i.id ∈ ids) }

/-- A fresh blob URL for loaded page-image bytes
(`URL.createObjectURL`). -/
def mkObjectURL (blob : Nat) : String :=
  "blob:" ++ blob.repr

/-- Restore one stored item: when it references a job and a page, look up
the page image under key `{jobId}_{pageNumber-1}` and attach a fresh
handle when the image exists; otherwise return the item as stored. -/
def restoreItem (s : Store) (it : OCRItem) : OCRItem :=
  match it.jobId, it.pageNumber with
  | some j, some p =>
    if j ≠ "" then
      match getPageImage s.pageImages j (p - 1) with
      | some blob => { it with sourceImageUrl := some (mkObjectURL blob) }
      | none => it
    else it
  | _, _ => it

/-- `storageService.loadAllData`: all jobs plus all items, each item
reconstructed with a fresh blob URL when its page image is present. -/
def loadAllData (s : Store) : List ProcessingJob × List OCRItem :=
  (s.jobs, s.items.map (restoreItem s))

/-! ## Job orchestrator (the `App` component) -/

/-- The React state of the `App` component together with the durable
store it eagerly mirrors into. -/
structure AppState where
  jobs : List ProcessingJob := []
  resultItems : List OCRItem := []
  store : Store := {}
deriving DecidableEq, Repr

/-- `updateJob`: patch every job with the given id in the in-memory list,
then persist the (first) updated job. -/
def updateJob (st : AppState) (id : String) (p : JobPatch) : AppState :=
  let newJobs := st.jobs.map (fun j => if j.id = id then applyJobPatch p j else j)
  match newJobs.find? (fun j => j.id = id) with
  | some updatedJob => { st with jobs := newJobs, store := saveJobStore st.store updatedJob }
  | none => { st with jobs := newJobs }

/-- How one page's extraction promise settles: the remote call either
fails or succeeds with a list of raw rows (already mapped to items). -/
inductive PageOutcome where
  | failure
  | success (items : List OCRItem)
deriving DecidableEq, Repr

/-- Tag a freshly extracted item with its source file, job, blob URL and
1-based page number (the object spread in `processJob`'s page callback). -/
def tagItem (job : ProcessingJob) (url : String) (pageNo : Int) (it : OCRItem) : OCRItem :=
  { it with
    sourceFile := some job.file.name
    jobId := some job.id
    sourceImageUrl := some url
    pageNumber := some pageNo }

/-- The in-flight progress message `処理中...` rendered for `c` of `n`
completed pages. -/
def progressMsg (c n : Nat) : String :=
  "Gemini 3.0 解析中 (" ++ c.repr ++ "/" ++ n.repr ++ " ページ)..."

/-- One page settlement of `processJob`'s fan-out.  On success the tagged
items are appended to the working set and persisted, the shared
`completedCount` is incremented and the job is patched with the new
progress; on failure the error is only logged, so the state is returned
unchanged. -/
def settlePage (job : ProcessingJob) (files : List JsFile)
    (s : AppState × Nat) (ev : Nat × PageOutcome) : AppState × Nat :=
  match files.get? ev.1 with
  | none => s
  | some pageImage =>
    match ev.2 with
    | .failure => s
    | .success rawItems =>
      let url := mkObjectURL pageImage.blob
      let tagged := rawItems.map (tagItem job url ((ev.1 : Int) + 1))
      let st1 := { s.1 with
        resultItems := s.1.resultItems ++ tagged
        store := saveItemsStore s.1.store tagged }
      let cc := s.2 + 1
      let st2 := updateJob st1 job.id
        { processedPages := some cc
          progressMessage := some (progressMsg cc files.length) }
      (st2, cc)

/-- Run a sequence of page settlements, in completion order, threading
the `completedCount` local. -/
def runSettlements (job : ProcessingJob) (files : List JsFile)
    (evs : List (Nat × PageOutcome)) (s : AppState × Nat) : AppState × Nat :=
  evs.foldl (settlePage job files) s

/-- Number of successful settlements in a sequence. -/
def countSucc (evs : List (Nat × PageOutcome)) : Nat :=
  (evs.filter (fun ev => ev.2 ≠ PageOutcome.failure)).length

/-- Name given to a page file rebuilt from a stored image
(`{fileName}_p{pageIdx}.jpg`). -/
def storedPageName (job : ProcessingJob) (idx : Nat) : String :=
  job.file.name ++ "_p" ++ idx.repr ++ ".jpg"

/-- The `while(true)` resume loop of `processJob`: rebuild page files
from consecutively stored images starting at `idx`, stopping at the first
missing index.  `fuel` bounds the iteration count (the loop is entered
with one more unit of fuel than there are stored images). -/
def collectStoredPages (s : Store) (job : ProcessingJob) : Nat → Nat → List JsFile
  | 0, _ => []
  | fuel + 1, idx =>
    match getPageImage s.pageImages job.id idx with
    | none => []
    | some b => ⟨storedPageName job idx, "image/jpeg", b⟩ ::
        collectStoredPages s job fuel (idx + 1)

/-- JS `String.prototype.replace` with a plain-string pattern: replace
the first occurrence only. -/
def replaceFirst (pat rep : Str) : Str → Str
  | [] => []
  | c :: rest =>
    if pat.isPrefixOf (c :: rest) then rep ++ (c :: rest).drop pat.length
    else c :: replaceFirst pat rep rest

/-- Name given to a freshly rasterized PDF page
(`{file.name.replace('.pdf','')}_page_{i+1}.jpg`). -/
def pdfPageName (job : ProcessingJob) (i : Nat) : String :=
  String.mk (replaceFirst ".pdf".data [] job.file.name.data) ++
    "_page_" ++ (i + 1).repr ++ ".jpg"

/-- Persist the page images of a fresh conversion, one per index. -/
def savePages (s : Store) (jobId : String) (files : List JsFile) : Store :=
  (files.enum).foldl (fun acc e => savePageImage acc jobId e.1 e.2.blob) s

/-- The conversion dispatch once the job has been marked `converting`:
resume from stored page images when index 0 exists, otherwise rasterize
a PDF (via the oracle `raster`) or pass a plain image file through,
persisting the fresh page images.  The third component records whether
the rasterizer was invoked. -/
def conversionCore (st1 : AppState) (job : ProcessingJob)
    (raster : Except String (List Nat)) :
    AppState × Except String (List JsFile) × Bool :=
  match getPageImage st1.store.pageImages job.id 0 with
  | some _ =>
    (st1, .ok (collectStoredPages st1.store job (st1.store.pageImages.length + 1) 0),
     false)
  | none =>
    if job.file.ftype = "application/pdf" then
      let st2 := updateJob st1 job.id
        { status := some .converting, progressMessage := some "PDFを画像に変換中..." }
      match raster with
      | .error e => (st2, .error e, true)
      | .ok blobs =>
        let files := blobs.enum.map (fun e => (⟨pdfPageName job e.1, "image/jpeg", e.2⟩ : JsFile))
        let st3 := { st2 with store := savePages st2.store job.id files }
        (st3, .ok files, true)
    else
      let files := [job.file]
      let st2 := { st1 with store := savePages st1.store job.id files }
      (st2, .ok files, false)

/-- The conversion phase of `processJob`: mark the job `converting` and
dispatch. -/
def runConversionPhase (st0 : AppState) (job : ProcessingJob)
    (raster : Except String (List Nat)) :
    AppState × Except String (List JsFile) × Bool :=
  conversionCore
    (updateJob st0 job.id
      { status := some .converting, progressMessage := some "ファイルを準備中..." })
    job raster

/-- `err.message || "処理に失敗しました"`. -/
def errMsgOrDefault (e : String) : String :=
  if e = "" then "処理に失敗しました" else e

/-- `processJob`: conversion phase, fan-out over the pages (settling in
the order given by `evs`), then terminalization.  A conversion failure
terminalizes the job as `error`; page failures are swallowed inside
`settlePage`. -/
def processJob (st0 : AppState) (job : ProcessingJob)
    (raster : Except String (List Nat)) (evs : List (Nat × PageOutcome)) : AppState :=
  match runConversionPhase st0 job raster with
  | (st1, .error e, _) =>
    updateJob st1 job.id
      { status := some .error
        errorMessage := some (some (errMsgOrDefault e))
        progressMessage := some "エラー" }
  | (st1, .ok files, _) =>
    let n := files.length
    let st2 := updateJob st1 job.id
      { status := some .processing
        totalPages := some n
        processedPages := some 0
        progressMessage := some ("処理中 0/" ++ n.repr) }
    let st3 := (runSettlements job files evs (st2, 0)).1
    updateJob st3 job.id
      { status := some .completed
        processedPages := some n
        progressMessage := some "完了" }

/-! ## Item reconciliation (`handleItemUpdate`, `handleRetryJob`) -/

/-- A `Partial<OCRItem>` patch; `none` marks an absent key, and for the
optional fields `some none` models an explicit `undefined`. -/
structure ItemPatch where
  id : Option String := none
  no : Option String := none
  janCode : Option String := none
  productName : Option String := none
  vendorProductCode : Option String := none
  size : Option String := none
  color : Option String := none
  reportedTotal : Option Int := none
  distributions : Option (List Distribution) := none
  calculatedTotal : Option Int := none
  isCorrect : Option Bool := none
  isVerified : Option Bool := none
  sourceFile : Option (Option String) := none
  sourceImageUrl : Option (Option String) := none
  jobId : Option (Option String) := none
  pageNumber : Option (Option Int) := none
  boundingBox : Option (Option (List Int)) := none
deriving DecidableEq, Repr

/-- The JS object spread `{ ...item, ...updates }`. -/
def applyItemPatch (p : ItemPatch) (it : OCRItem) : OCRItem :=
  { id := p.id.getD it.id
    no := p.no.getD it.no
    janCode := p.janCode.getD it.janCode
    productName := p.productName.getD it.productName
    vendorProductCode := p.vendorProductCode.getD it.vendorProductCode
    size := p.size.getD it.size
    color := p.color.getD it.color
    reportedTotal := p.reportedTotal.getD it.reportedTotal
    distributions := p.distributions.getD it.distributions
    calculatedTotal := p.calculatedTotal.getD it.calculatedTotal
    isCorrect := p.isCorrect.getD it.isCorrect
    isVerified := p.isVerified.getD it.isVerified
    sourceFile := p.sourceFile.getD it.sourceFile
    sourceImageUrl := p.sourceImageUrl.getD it.sourceImageUrl
    jobId := p.jobId.getD it.jobId
    pageNumber := p.pageNumber.getD it.pageNumber
    boundingBox := p.boundingBox.getD it.boundingBox }

/-- Whether the patch touches the distributions or the reported total
(`updates.distributions || updates.reportedTotal !== undefined`; an
array value, even empty, is truthy). -/
def patchTouchesTotals (p : ItemPatch) : Bool :=
  p.distributions.isSome || p.reportedTotal.isSome

/-- Apply a patch to one item and, when it touches distributions or the
reported total, unconditionally recompute `calculatedTotal`/`isCorrect`
from the patched fields. -/
def patchAndRecompute (p : ItemPatch) (it : OCRItem) : OCRItem :=
  let newItem := applyItemPatch p it
  if patchTouchesTotals p then
    let total := distSum newItem.distributions
    { newItem with
      calculatedTotal := total
      isCorrect := decide (total = newItem.reportedTotal) }
  else newItem

/-- One step of `handleItemUpdate`'s traversal: items with another id
pass through; the item with the target id is patched, recomputed when
required, and persisted. -/
def itemUpdateStep (iid : String) (p : ItemPatch)
    (acc : List OCRItem × Store) (item : OCRItem) : List OCRItem × Store :=
  if item.id ≠ iid then (item :: acc.1, acc.2)
  else
    let newItem := patchAndRecompute p item
    (newItem :: acc.1, saveItemStore acc.2 newItem)

/-- `handleItemUpdate`: map over the working set, patching (and possibly
recomputing) the item with the given id, persisting each patched item. -/
def handleItemUpdate (iid : String) (p : ItemPatch) (st : AppState) : AppState :=
  let folded := st.resultItems.foldl (itemUpdateStep iid p) ([], st.store)
  { st with resultItems := folded.1.reverse, store := folded.2 }

/-- `handleRetryJob`: purge the job's items from the durable store and
the working set, reset the job to `queued` with cleared progress and
error, and hand the reset job back for a full re-run of `processJob`.
An unknown job id is a no-op. -/
def handleRetryJob (jobId : String) (st : AppState) :
    AppState × Option ProcessingJob :=
  match st.jobs.find? (fun j => j.id = jobId) with
  | none => (st, none)
  | some job =>
    let store1 := deleteItemsByJobIdStore st.store jobId
    let items1 := st.resultItems.filter (fun i => ¬ i.jobId = some jobId)
    let resetJob : ProcessingJob :=
      { job with
        status := .queued
        processedPages := 0
        progressMessage := "再処理待機中..."
        errorMessage := none }
    let st1 : AppState := { st with resultItems := items1, store := store1 }
    let st2 := updateJob st1 jobId (jobToPatch resetJob)
    (st2, some resetJob)

/-! ## CSV export (`exportToCSV` in the csv helper) -/

/-- Double every `"` in a string (the `replace(/"/g, '""')` escape). -/
def doubleQuotes (s : Str) : Str :=
  s.flatMap (fun c => if c = '"' then ['"', '"'] else [c])

/-- The csv helper's `escape`: wrap in quotes, doubling inner quotes. -/
def csvEscape (s : String) : String :=
  "\"" ++ String.mk (doubleQuotes s.data) ++ "\""

/-- The header cells of the fixed-schema CSV export: page, row no,
product name, JAN code, vendor code, size, color, reported total,
destination code, quantity, calculated total, verification status. -/
def csvHeaders : List String :=
  ["ページ", "No", "商品名", "JANコード", "メーカー品番",
   "サイズ", "カラー", "記載合計", "店番号", "数量", "算出合計", "確認"]

/-- `${item.pageNumber || ''}`: a truthy (non-zero, defined) page number
renders in decimal, anything else as the empty string. -/
def pageCell (p : Option Int) : String :=
  match p with
  | some v => if v ≠ 0 then intRepr v else ""
  | none => ""

/-- The verification-status cell. -/
def verifCell (it : OCRItem) : String :=
  if it.isCorrect then "OK" else "確認要"

/-- The eight shared leading cells of every row of an item. -/
def baseRow (it : OCRItem) : List String :=
  [pageCell it.pageNumber, it.no, csvEscape it.productName,
   csvEscape it.janCode, csvEscape it.vendorProductCode,
   csvEscape it.size, csvEscape it.color, intRepr it.reportedTotal]

/-- The data rows of one item: one row per distribution, or a single row
with blank destination-code and quantity cells when the item has no
distributions. -/
def rowsForItem (it : OCRItem) : List String :=
  if it.distributions.length > 0 then
    it.distributions.map (fun d =>
      String.intercalate "," (baseRow it ++
        ["\"" ++ d.shopCode ++ "\"", intRepr d.quantity,
         intRepr it.calculatedTotal, verifCell it]))
  else
    [String.intercalate "," (baseRow it ++
      ["", "", intRepr it.calculatedTotal, verifCell it])]

/-- All CSV lines: the joined header followed by every item's rows. -/
def csvRows (items : List OCRItem) : List String :=
  String.intercalate "," csvHeaders :: items.flatMap rowsForItem

/-- The produced download: the UTF-8 BOM bytes prepended to the blob,
the joined CSV text, and the chosen file name. -/
structure CSVDownload where
  bom : List Nat
  content : String
  filename : String
deriving DecidableEq, Repr

/-- `exportToCSV`: `none` models the early return on an empty item list;
`stem` is the filename argument and `ts` the `Date.now()` millisecond
timestamp. -/
def exportToCSV (items : List OCRItem) (stem : String) (ts : Nat) : Option CSVDownload :=
  if items = [] then none
  else some
    { bom := [0xEF, 0xBB, 0xBF]
      content := String.intercalate "\n" (csvRows items)
      filename := stem ++ "_" ++ ts.repr ++ ".csv" }

/-! ## Template service (`templateService.deleteTemplate`) -/

/-- A user-authored template; only the identity matters for deletion. -/
structure OCRTemplate where
  id : String
  name : String
deriving DecidableEq, Repr

/-- The built-in default template set (`DEFAULT_TEMPLATES`). -/
def defaultTemplates : List OCRTemplate :=
  [⟨"hokkaido-sanki-fax-v1", "北海道三喜社 FAX注文書"⟩,
   ⟨"generic-invoice-v1", "汎用請求書"⟩]

/-- One logged access to the template object store. -/
inductive TemplateStoreOp where
  | deleteKey (id : String)
deriving DecidableEq, Repr

/-- `templateService.deleteTemplate`: deleting a default template throws
before the database is even opened; otherwise the entry with that key is
deleted.  The third component logs the storage accesses performed. -/
def deleteTemplate (id : String) (store : List OCRTemplate) :
    Except String Unit × List OCRTemplate × List TemplateStoreOp :=
  if defaultTemplates.any (fun t => t.id = id) then
    (.error "デフォルトテンプレートは削除できません", store, [])
  else
    (.ok (), store.filter (fun t => ¬ t.id = id), [.deleteKey id])

/-! ## Derived notions and concrete fixtures -/

/-- The fixed-schema derived-field invariant: `calculatedTotal` is the
sum of the distribution quantities and `isCorrect` compares it with the
reported total. -/
def itemInvariant (it : OCRItem) : Prop :=
  it.calculatedTotal = distSum it.distributions ∧
  it.isCorrect = decide (it.calculatedTotal = it.reportedTotal)

instance (it : OCRItem) : Decidable (itemInvariant it) := by
  unfold itemInvariant; infer_instance

/-- A patch that writes a derived field only when it also touches its
inputs (so the recomputation fires). -/
def patchSafe (p : ItemPatch) : Prop :=
  (p.calculatedTotal.isSome ∨ p.isCorrect.isSome) → patchTouchesTotals p = true

/-- A sequence of `handleItemUpdate` calls. -/
def applyItemUpdates (l : List (String × ItemPatch)) (st : AppState) : AppState :=
  l.foldl (fun s pr => handleItemUpdate pr.1 pr.2 s) st

/-- Every job entry with the given id carries this processed-page
count. -/
def jobsProcessed (st : AppState) (jid : String) (c : Nat) : Prop :=
  ∀ j ∈ st.jobs, j.id = jid → j.processedPages = c

instance (st : AppState) (jid : String) (c : Nat) :
    Decidable (jobsProcessed st jid c) := by
  unfold jobsProcessed; infer_instance

/-- Replace the full-width space U+3000 by the ASCII space. -/
def toAsciiSpace (c : Char) : Char :=
  if c = '　' then ' ' else c

/-- Fixture: an item whose derived fields satisfy the invariant. -/
def fixtureItemA : OCRItem :=
  { id := "a1", no := "1", janCode := "4900000000001", productName := "シャツ",
    vendorProductCode := "995668D", size := "150", color := "白",
    reportedTotal := 3, distributions := [⟨"A", 3⟩], calculatedTotal := 3,
    isCorrect := true, isVerified := false }

/-- Fixture: an item without distributions. -/
def fixtureItemB : OCRItem :=
  { id := "a2", no := "2", janCode := "", productName := "パンツ",
    vendorProductCode := "E90604", size := "150", color := "黒",
    reportedTotal := 2, distributions := [], calculatedTotal := 0,
    isCorrect := false, isVerified := false }

/-- Fixture: a patch that writes the derived flag directly. -/
def fixtureBadPatch : ItemPatch := { isCorrect := some false }

/-- Fixture: the app state holding `fixtureItemA`. -/
def fixtureState : AppState :=
  { jobs := [], resultItems := [fixtureItemA],
    store := { items := [stripItem fixtureItemA] } }

/-- Fixture: a queued single-image job. -/
def fixtureJob : ProcessingJob :=
  { id := "j1", file := ⟨"a.jpg", "image/jpeg", 1⟩, status := .processing,
    totalPages := 1, processedPages := 0, progressMessage := "処理中 0/1" }

/-- Fixture: the app state holding `fixtureJob` mid-processing. -/
def fixtureJobState : AppState :=
  { jobs := [fixtureJob], resultItems := [],
    store := { jobs := [fixtureJob] } }

/-- Fixture: the app state of `fixtureJob` with one tagged item, both
mirrored in the durable store. -/
def fixtureRetryState : AppState :=
  { jobs := [fixtureJob]
    resultItems := [{ fixtureItemA with jobId := some "j1" }]
    store :=
      { jobs := [fixtureJob]
        items := [stripItem { fixtureItemA with jobId := some "j1" }] } }

/-- Fixture: a queued two-page PDF job. -/
def fixturePdfJob : ProcessingJob :=
  { id := "j2", file := ⟨"doc.pdf", "application/pdf", 9⟩, status := .queued,
    totalPages := 0, processedPages := 0, progressMessage := "待機中..." }

/-- Fixture: the app state holding the freshly enqueued `fixturePdfJob`. -/
def fixturePdfState : AppState :=
  { jobs := [fixturePdfJob], resultItems := [],
    store := { jobs := [fixturePdfJob] } }

/-- Fixture: `fixturePdfJob` as it reads after its two pages settled. -/
def fixturePdfJobDone : ProcessingJob :=
  { fixturePdfJob with
    status := .completed
    totalPages := 2
    processedPages := 2
    progressMessage := "完了" }

/-- Fixture: a queued PDF job whose page images are already stored. -/
def fixtureResumeJob : ProcessingJob :=
  { id := "jr", file := ⟨"b.pdf", "application/pdf", 3⟩, status := .queued,
    totalPages := 0, processedPages := 0, progressMessage := "待機中..." }

/-- Fixture: the app state with two stored page images for `jr`. -/
def fixtureResumeState : AppState :=
  { jobs := [fixtureResumeJob], resultItems := [],
    store := { jobs := [fixtureResumeJob],
               pageImages := [("jr_0", 5), ("jr_1", 7)] } }

/-- Fixture: the stored page-image bytes of `fixtureResumeState` by
index. -/
def fixtureBlobAt : Nat → Nat :=
  fun i => if i = 0 then 5 else 7

/-! ## Helper lemmas -/

theorem splitOnChar_cons (sep c : Char) (rest : Str) :
    splitOnChar sep (c :: rest) =
      match splitOnChar sep rest with
      | [] => [[]]
      | t :: ts => if c = sep then [] :: t :: ts else (c :: t) :: ts := rfl

theorem splitOnChar_ne_nil (sep : Char) (s : Str) : splitOnChar sep s ≠ [] := by
  cases s with
  | nil => simp [splitOnChar]
  | cons c rest =>
    simp only [splitOnChar]
    rcases h : splitOnChar sep rest with _ | ⟨t, ts⟩
    · simp
    · by_cases hc : c = sep <;> simp [hc]

theorem splitOnChar_append (sep : Char) (a b : Str) :
    splitOnChar sep (a ++ sep :: b) = splitOnChar sep a ++ splitOnChar sep b := by
  induction a with
  | nil =>
    simp only [List.nil_append, splitOnChar]
    rcases h : splitOnChar sep b with _ | ⟨t, ts⟩
    · exact absurd h (splitOnChar_ne_nil sep b)
    · simp
  | cons c rest ih =>
    rcases h : splitOnChar sep rest with _ | ⟨t, ts⟩
    · exact absurd h (splitOnChar_ne_nil sep rest)
    · have ih2 : splitOnChar sep (rest ++ sep :: b) = t :: (ts ++ splitOnChar sep b) := by
        rw [ih, h]; rfl
      show splitOnChar sep (c :: (rest ++ sep :: b)) = _
      rw [splitOnChar_cons, splitOnChar_cons, ih2, h]
      by_cases hc : c = sep <;> simp [hc]

theorem splitOnChar_not_mem {sep : Char} {s : Str} (h : sep ∉ s) :
    splitOnChar sep s = [s] := by
  induction s with
  | nil => rfl
  | cons c rest ih =>
    simp only [List.mem_cons, not_or] at h
    rw [splitOnChar_cons, ih h.2]
    simp [Ne.symm h.1]

theorem rowsForItem_length (it : OCRItem) :
    (rowsForItem it).length = max 1 it.distributions.length := by
  unfold rowsForItem
  by_cases h : it.distributions.length > 0
  · rw [if_pos h, List.length_map]
    omega
  · rw [if_neg h]
    simp only [List.length_cons, List.length_nil]
    omega

theorem csvRows_length (items : List OCRItem) :
    (csvRows items).length =
      1 + (items.map (fun it => max 1 it.distributions.length)).sum := by
  unfold csvRows
  induction items with
  | nil => simp
  | cons a l ih =>
    simp only [List.flatMap_cons, List.map_cons, List.sum_cons, List.length_cons,
      List.length_append, rowsForItem_length] at ih ⊢
    omega

/-! ## Claims -/

/-- C10: deleting a built-in default template throws before any storage
access (the access log stays empty and the stored collection is returned
unchanged); only non-default ids reach storage, where exactly the entry
with the given id is removed. -/
theorem claim_C10 (id : String) (store : List OCRTemplate) :
    (id ∈ defaultTemplates.map OCRTemplate.id →
      deleteTemplate id store =
        (.error "デフォルトテンプレートは削除できません", store, [])) ∧
    (id ∉ defaultTemplates.map OCRTemplate.id →
      (deleteTemplate id store).1 = .ok () ∧
      (∀ t, t ∈ (deleteTemplate id store).2.1 ↔ t ∈ store ∧ ¬ t.id = id) ∧
      (deleteTemplate id store).2.2 = [.deleteKey id]) := by
  constructor
  · intro hmem
    have : defaultTemplates.any (fun t => t.id = id) = true := by
      simp only [List.any_eq_true, decide_eq_true_eq]
      obtain ⟨t, ht, hid⟩ := List.mem_map.mp hmem
      exact ⟨t, ht, hid⟩
    simp [deleteTemplate, this]
  · intro hmem
    have : defaultTemplates.any (fun t => t.id = id) = false := by
      simp only [List.any_eq_false, decide_eq_true_eq]
      intro t ht hid
      exact hmem (List.mem_map.mpr ⟨t, ht, hid⟩)
    refine ⟨by simp [deleteTemplate, this], fun t => ?_, by simp [deleteTemplate, this]⟩
    simp [deleteTemplate, this, List.mem_filter]

/-- C10 witness: deleting the default template id
`hokkaido-sanki-fax-v1` fails without touching storage. -/
theorem claim_C10_witness :
    deleteTemplate "hokkaido-sanki-fax-v1" [⟨"custom-1", "カスタム"⟩] =
      (.error "デフォルトテンプレートは削除できません", [⟨"custom-1", "カスタム"⟩], []) :=
  (claim_C10 "hokkaido-sanki-fax-v1" [⟨"custom-1", "カスタム"⟩]).1 (by decide)

/-- C9: for a non-empty item list the CSV export produces the BOM bytes,
the `{stem}_{timestamp}.csv` filename, a first line joining exactly the
twelve header cells, one data row per (item, distribution) pair — an
item with no distributions yields exactly one row whose destination-code
and quantity cells are blank — and the verification cell renders `OK`
exactly for correct items. -/
theorem claim_C9 (items : List OCRItem) (stem : String) (ts : Nat)
    (hne : items ≠ []) :
    exportToCSV items stem ts = some
      { bom := [0xEF, 0xBB, 0xBF]
        content := String.intercalate "\n" (csvRows items)
        filename := stem ++ "_" ++ ts.repr ++ ".csv" } ∧
    (csvRows items).length =
      1 + (items.map (fun it => max 1 it.distributions.length)).sum ∧
    (csvRows items).head? = some (String.intercalate "," csvHeaders) ∧
    csvHeaders.length = 12 ∧
    (∀ it : OCRItem, it.distributions = [] →
      rowsForItem it = [String.intercalate "," (baseRow it ++
        ["", "", intRepr it.calculatedTotal, verifCell it])]) ∧
    (∀ it : OCRItem, (rowsForItem it).length = max 1 it.distributions.length) ∧
    (∀ it : OCRItem, verifCell it = if it.isCorrect then "OK" else "確認要") := by
  refine ⟨by simp [exportToCSV, hne], csvRows_length items, rfl, rfl, ?_, rowsForItem_length, fun it => rfl⟩
  intro it hdist
  simp [rowsForItem, hdist]

/-- C9 witness: exporting two concrete items (one with a single
distribution, one with none) at a concrete timestamp. -/
theorem claim_C9_witness :
    exportToCSV [fixtureItemA, fixtureItemB] "job_export" 1700000000000 = some
      { bom := [0xEF, 0xBB, 0xBF]
        content := String.intercalate "\n" (csvRows [fixtureItemA, fixtureItemB])
        filename := "job_export" ++ "_" ++ (1700000000000 : Nat).repr ++ ".csv" } ∧
    (csvRows [fixtureItemA, fixtureItemB]).length = 3 :=
  ⟨(claim_C9 [fixtureItemA, fixtureItemB] "job_export" 1700000000000 (by decide)).1,
   by rw [(claim_C9 [fixtureItemA, fixtureItemB] "job_export" 1700000000000 (by decide)).2.1]; decide⟩

/-- C4: the distribution string splits on `|` then `:`; segments with a
missing code or quantity are dropped; a non-integer quantity defaults to
`0`; splitting distributes over `|`-concatenation, so output order
follows input order.  Concretely `"A:3|B:2"` parses to quantities 3 then
2 and the malformed middle segment of `"A:3|bad|B:2"` is dropped. -/
theorem claim_C4 :
    parseDistributions "A:3|B:2" = [⟨"A", 3⟩, ⟨"B", 2⟩] ∧
    parseDistributions "A:3|bad|B:2" = [⟨"A", 3⟩, ⟨"B", 2⟩] ∧
    (∀ a b : Str, parseDistsCore (a ++ '|' :: b) =
      parseDistsCore a ++ parseDistsCore b) ∧
    (∀ part : Str, ':' ∉ part → parsePair part = none) ∧
    (∀ rest : Str, parsePair (':' :: rest) = none) ∧
    parseDistributions "A:x" = [⟨"A", 0⟩] := by
  refine ⟨by decide, by decide, ?_, ?_, ?_, by decide⟩
  · intro a b
    unfold parseDistsCore
    rw [splitOnChar_append, List.filterMap_append]
  · intro part h
    unfold parsePair
    rw [splitOnChar_not_mem h]
    rfl
  · intro rest
    unfold parsePair
    rcases h : splitOnChar ':' rest with _ | ⟨t, ts⟩
    · exact absurd h (splitOnChar_ne_nil ':' rest)
    · rw [splitOnChar_cons, h]
      simp

/-- C4 witness: the malformed segment `"bad"` (no `:`) is dropped. -/
theorem claim_C4_witness : parsePair "bad".data = none :=
  claim_C4.2.2.2.1 "bad".data (by decide)

theorem jsSpace_toAsciiSpace (c : Char) : jsSpace (toAsciiSpace c) = jsSpace c := by
  unfold toAsciiSpace
  by_cases h : c = '　'
  · rw [if_pos h, h]; decide
  · rw [if_neg h]

theorem toAsciiSpace_of_not_space {c : Char} (h : jsSpace c = false) :
    toAsciiSpace c = c := by
  unfold toAsciiSpace
  by_cases hc : c = '　'
  · subst hc; exact absurd h (by decide)
  · rw [if_neg hc]

theorem collapseWs_map_toAscii (l : Str) : ∀ prev : Bool,
    collapseWs prev (l.map toAsciiSpace) = collapseWs prev l := by
  induction l with
  | nil => intro prev; rfl
  | cons c rest ih =>
    intro prev
    by_cases h : jsSpace c = true
    · simp [List.map_cons, collapseWs, jsSpace_toAsciiSpace, h, ih]
    · have hf : jsSpace c = false := by revert h; cases jsSpace c <;> simp
      simp [List.map_cons, collapseWs, jsSpace_toAsciiSpace, hf, ih,
        toAsciiSpace_of_not_space hf]

theorem collapseWs_nospace {l : Str} (h : ∀ c ∈ l, jsSpace c = false) :
    ∀ prev : Bool, collapseWs prev l = l := by
  induction l with
  | nil => intro prev; rfl
  | cons c rest ih =>
    intro prev
    have hc := h c (by simp)
    simp only [collapseWs, hc, Bool.false_eq_true, if_false]
    rw [ih (fun d hd => h d (List.mem_cons_of_mem c hd))]

theorem collapseWs_space_char {l : Str} : ∀ (prev : Bool) (c : Char),
    c ∈ collapseWs prev l → jsSpace c = true → c = ' ' := by
  induction l with
  | nil => intro prev c hmem; simp [collapseWs] at hmem
  | cons d rest ih =>
    intro prev c hmem hsp
    by_cases hd : jsSpace d
    · simp only [collapseWs, hd, if_true] at hmem
      by_cases hp : prev
      · rw [if_pos hp] at hmem; exact ih true c hmem hsp
      · rw [if_neg hp] at hmem
        rcases List.mem_cons.mp hmem with h | h
        · exact h
        · exact ih true c h hsp
    · simp only [collapseWs, hd, Bool.false_eq_true, if_false] at hmem
      rcases List.mem_cons.mp hmem with h | h
      · subst h; exact absurd hsp (by simp [hd])
      · exact ih false c h hsp

theorem collapseWs_last_sep {t : Str} (hsp : ∀ c ∈ t, jsSpace c = false) :
    ∀ (p : Str) (prev : Bool),
      (∃ u, collapseWs prev (p ++ ' ' :: t) = u ++ ' ' :: t) ∨
      (prev = true ∧ collapseWs prev (p ++ ' ' :: t) = t) := by
  intro p
  induction p with
  | nil =>
    intro prev
    have hct : collapseWs true t = t := collapseWs_nospace hsp true
    simp only [List.nil_append, collapseWs]
    have hsp' : jsSpace ' ' = true := by decide
    rw [hsp', if_pos rfl]
    by_cases hp : prev
    · right; exact ⟨hp, by rw [if_pos hp, hct]⟩
    · left; exact ⟨[], by rw [if_neg hp, hct]; rfl⟩
  | cons c p ih =>
    intro prev
    simp only [List.cons_append, collapseWs, List.append_eq]
    by_cases hc : jsSpace c
    · rw [if_pos hc]
      by_cases hp : prev
      · rw [if_pos hp]
        rcases ih true with ⟨u, h⟩ | ⟨_, h⟩
        · exact Or.inl ⟨u, h⟩
        · exact Or.inr ⟨hp, h⟩
      · rw [if_neg hp]
        rcases ih true with ⟨u, h⟩ | ⟨_, h⟩
        · exact Or.inl ⟨' ' :: u, by rw [h]; rfl⟩
        · exact Or.inl ⟨[], by rw [h]; rfl⟩
    · rw [if_neg hc]
      rcases ih false with ⟨u, h⟩ | ⟨hfalse, _⟩
      · exact Or.inl ⟨c :: u, by rw [h]; rfl⟩
      · exact absurd hfalse (by simp)

theorem getLast?_split_dropWhile {l : Str}
    (h : ∀ c ∈ l, jsSpace c = true → c = ' ') :
    (splitOnChar ' ' (l.dropWhile jsSpace)).getLast? =
      (splitOnChar ' ' l).getLast? := by
  induction l with
  | nil => rfl
  | cons c rest ih =>
    by_cases hc : jsSpace c
    · have hcsp : c = ' ' := h c (by simp) hc
      rw [List.dropWhile_cons, if_pos hc]
      rw [ih (fun d hd => h d (List.mem_cons_of_mem c hd))]
      rcases hs : splitOnChar ' ' rest with _ | ⟨t, ts⟩
      · exact absurd hs (splitOnChar_ne_nil ' ' rest)
      · rw [splitOnChar_cons, hs, hcsp]
        simp [List.getLast?_cons_cons]
    · rw [List.dropWhile_cons, if_neg (by simp [hc])]

theorem cleanVendorCore_lastToken (p t : Str) (ht : t ≠ [])
    (hsp : ∀ c ∈ t, jsSpace c = false) :
    cleanVendorCore (p ++ ' ' :: t) = t := by
  have hne : p ++ ' ' :: t ≠ [] := List.append_ne_nil_of_right_ne_nil p (by simp)
  obtain ⟨u, hL⟩ : ∃ u, collapseWs false (p ++ ' ' :: t) = u ++ ' ' :: t := by
    rcases collapseWs_last_sep hsp p false with h | ⟨hcontra, _⟩
    · exact h
    · exact absurd hcontra (by simp)
  obtain ⟨z, hz⟩ : ∃ z, t.getLast? = some z := by
    cases htl : t.getLast? with
    | none => exact absurd (List.getLast?_eq_none_iff.mp htl) ht
    | some z => exact ⟨z, rfl⟩
  have hzmem : z ∈ t := List.mem_of_mem_getLast? (by rw [hz]; rfl)
  have hzsp : jsSpace z = false := hsp z hzmem
  have hLlast : (collapseWs false (p ++ ' ' :: t)).getLast? = some z := by
    rw [hL, List.getLast?_append_of_ne_nil _ (by simp)]
    cases t with
    | nil => exact absurd rfl ht
    | cons a r => rw [List.getLast?_cons_cons]; exact hz
  have hDne : (collapseWs false (p ++ ' ' :: t)).dropWhile jsSpace ≠ [] := by
    intro hnil
    have hall := List.dropWhile_eq_nil_iff.mp hnil
    have hzL : z ∈ collapseWs false (p ++ ' ' :: t) := by
      rw [hL]; exact List.mem_append_right _ (List.mem_cons_of_mem _ hzmem)
    have := hall z hzL
    rw [hzsp] at this
    exact absurd this (by simp)
  have hDlast : ((collapseWs false (p ++ ' ' :: t)).dropWhile jsSpace).getLast? = some z := by
    calc ((collapseWs false (p ++ ' ' :: t)).dropWhile jsSpace).getLast?
        = ((collapseWs false (p ++ ' ' :: t)).takeWhile jsSpace ++
            (collapseWs false (p ++ ' ' :: t)).dropWhile jsSpace).getLast? :=
          (List.getLast?_append_of_ne_nil _ hDne).symm
      _ = (collapseWs false (p ++ ' ' :: t)).getLast? := by
          rw [List.takeWhile_append_dropWhile]
      _ = some z := hLlast
  have hnorm : jsTrim (collapseWs false (p ++ ' ' :: t)) =
      (collapseWs false (p ++ ' ' :: t)).dropWhile jsSpace := by
    unfold jsTrim
    have hhead : ((collapseWs false (p ++ ' ' :: t)).dropWhile jsSpace).reverse.head? = some z := by
      rw [List.head?_reverse]; exact hDlast
    cases hrev : ((collapseWs false (p ++ ' ' :: t)).dropWhile jsSpace).reverse with
    | nil => rw [hrev] at hhead; exact absurd hhead (by simp)
    | cons a r =>
      rw [hrev] at hhead
      have ha : a = z := by injection hhead
      subst ha
      rw [List.dropWhile_cons, hzsp]
      simp only [Bool.false_eq_true, if_false]
      rw [← hrev, List.reverse_reverse]
  have hnomem : ' ' ∉ t := fun hmem => by
    have := hsp ' ' hmem
    exact absurd this (by decide)
  have hsplitD : (splitOnChar ' '
      ((collapseWs false (p ++ ' ' :: t)).dropWhile jsSpace)).getLast? = some t := by
    rw [getLast?_split_dropWhile (fun c hc => collapseWs_space_char false c hc)]
    rw [hL, splitOnChar_append,
      List.getLast?_append_of_ne_nil _ (splitOnChar_ne_nil ' ' t),
      splitOnChar_not_mem hnomem]
    rfl
  unfold cleanVendorCore
  rw [if_neg hne, hnorm, hsplitD]

theorem cleanVendorCore_toAscii (v : Str) :
    cleanVendorCore (v.map toAsciiSpace) = cleanVendorCore v := by
  by_cases hv : v = []
  · subst hv; rfl
  · have hm : v.map toAsciiSpace ≠ [] := by
      simp only [ne_eq, List.map_eq_nil_iff]; exact hv
    unfold cleanVendorCore
    rw [if_neg hm, if_neg hv, collapseWs_map_toAscii]
    rcases hlast : (splitOnChar ' ' (jsTrim (collapseWs false v))).getLast? with _ | t
    · exact absurd (List.getLast?_eq_none_iff.mp hlast) (splitOnChar_ne_nil _ _)
    · rfl

/-- C5: the raw vendor code has every whitespace run (full-width spaces
included) collapsed to a single ASCII space and, after trimming, only
the last space-separated token is kept.  Concretely
`"0000 00 995668D"` maps to `"995668D"`, and replacing spaces by
full-width spaces never changes the result. -/
theorem claim_C5 :
    cleanVendorCode "0000 00 995668D" = "995668D" ∧
    cleanVendorCode "0000　00　995668D" = "995668D" ∧
    (∀ v : Str, cleanVendorCore (v.map toAsciiSpace) = cleanVendorCore v) ∧
    (∀ p t : Str, t ≠ [] → (∀ c ∈ t, jsSpace c = false) →
      cleanVendorCore (p ++ ' ' :: t) = t) :=
  ⟨by decide, by decide, cleanVendorCore_toAscii, cleanVendorCore_lastToken⟩

/-- C5 witness: the last token of a two-token vendor code is kept. -/
theorem claim_C5_witness : cleanVendorCore ("0000".data ++ ' ' :: "E90604".data) = "E90604".data :=
  claim_C5.2.2.2 "0000".data "E90604".data (by decide) (by decide)

theorem mem_putByKey {α : Type} (key : α → String) (x : α) :
    ∀ (l : List α) (y : α), y ∈ putByKey key x l → y = x ∨ y ∈ l := by
  intro l
  induction l with
  | nil => intro y hy; simp [putByKey] at hy; exact Or.inl hy
  | cons a rest ih =>
    intro y hy
    unfold putByKey at hy
    by_cases h : key a = key x
    · rw [if_pos h] at hy
      rcases List.mem_cons.mp hy with h1 | h1
      · exact Or.inl h1
      · exact Or.inr (List.mem_cons_of_mem a h1)
    · rw [if_neg h] at hy
      rcases List.mem_cons.mp hy with h1 | h1
      · exact Or.inr (by simp [h1])
      · rcases ih y h1 with h2 | h2
        · exact Or.inl h2
        · exact Or.inr (List.mem_cons_of_mem a h2)

/-- C6: item upserts strip the transient blob-URL handle before the
durable write, and an invariant handle-free store stays handle-free;
restore returns one output item per stored item (none dropped), differing
from the stored record at most in the freshly attached handle, which is
present exactly when the page image under key `{jobId}_{pageNumber-1}`
exists — an item whose image is missing is returned unchanged. -/
theorem claim_C6 :
    (∀ (s : Store) (it : OCRItem),
      (saveItemStore s it).items = putByKey OCRItem.id (stripItem it) s.items ∧
      (stripItem it).sourceImageUrl = none) ∧
    (∀ (s : Store) (its : List OCRItem),
      (∀ x ∈ s.items, x.sourceImageUrl = none) →
      ∀ x ∈ (saveItemsStore s its).items, x.sourceImageUrl = none) ∧
    (∀ s : Store, (loadAllData s).1 = s.jobs ∧
      (loadAllData s).2 = s.items.map (restoreItem s) ∧
      (loadAllData s).2.length = s.items.length) ∧
    (∀ (s : Store) (it : OCRItem), stripItem (restoreItem s it) = stripItem it) ∧
    (∀ (s : Store) (it : OCRItem) (j : String) (p : Int) (b : Nat),
      it.jobId = some j → j ≠ "" → it.pageNumber = some p →
      getPageImage s.pageImages j (p - 1) = some b →
      (restoreItem s it).sourceImageUrl = some (mkObjectURL b)) ∧
    (∀ (s : Store) (it : OCRItem) (j : String) (p : Int),
      it.jobId = some j → j ≠ "" → it.pageNumber = some p →
      getPageImage s.pageImages j (p - 1) = none →
      restoreItem s it = it) := by
  have hsave : ∀ (s : Store) (it : OCRItem),
      (∀ x ∈ s.items, x.sourceImageUrl = none) →
      ∀ x ∈ (saveItemStore s it).items, x.sourceImageUrl = none := by
    intro s it hinv x hx
    rcases mem_putByKey OCRItem.id (stripItem it) s.items x hx with h | h
    · rw [h]; rfl
    · exact hinv x h
  refine ⟨fun s it => ⟨rfl, rfl⟩, ?_, fun s => ⟨rfl, rfl, by simp [loadAllData]⟩, ?_, ?_, ?_⟩
  · intro s its
    induction its generalizing s with
    | nil => intro hinv x hx; exact hinv x hx
    | cons a rest ih =>
      intro hinv x hx
      exact ih (saveItemStore s a) (hsave s a hinv) x hx
  · intro s it
    rcases hj : it.jobId with _ | j
    · simp [restoreItem, hj]
    · rcases hp : it.pageNumber with _ | p
      · simp [restoreItem, hj, hp]
      · by_cases hjs : j = ""
        · simp [restoreItem, hj, hp, hjs]
        · rcases hg : getPageImage s.pageImages j (p - 1) with _ | b <;>
            simp [restoreItem, hj, hp, hjs, hg, stripItem]
  · intro s it j p b hj hjs hp hg
    simp [restoreItem, hj, hp, hjs, hg]
  · intro s it j p hj hjs hp hg
    simp [restoreItem, hj, hp, hjs, hg]

/-- C6 witness: restoring a stored item whose page image exists attaches
a fresh handle; a stripped item saved through the gateway carries none. -/
theorem claim_C6_witness :
    (restoreItem { pageImages := [("j1_0", 5)] }
        { fixtureItemA with jobId := some "j1", pageNumber := some 1 }).sourceImageUrl =
      some (mkObjectURL 5) :=
  claim_C6.2.2.2.2.1 { pageImages := [("j1_0", 5)] }
    { fixtureItemA with jobId := some "j1", pageNumber := some 1 }
    "j1" 1 5 rfl (by decide) rfl (by decide)

theorem jobs_updateJob (st : AppState) (id : String) (p : JobPatch) :
    (updateJob st id p).jobs =
      st.jobs.map (fun j => if j.id = id then applyJobPatch p j else j) := by
  unfold updateJob
  rcases h : (st.jobs.map (fun j => if j.id = id then applyJobPatch p j else j)).find?
      (fun j => j.id = id) with _ | uj <;> simp [h]

theorem updateJob_resultItems (st : AppState) (id : String) (p : JobPatch) :
    (updateJob st id p).resultItems = st.resultItems := by
  unfold updateJob
  rcases h : (st.jobs.map (fun j => if j.id = id then applyJobPatch p j else j)).find?
      (fun j => j.id = id) with _ | uj <;> simp [h]

theorem updateJob_storeItems (st : AppState) (id : String) (p : JobPatch) :
    (updateJob st id p).store.items = st.store.items := by
  unfold updateJob
  rcases h : (st.jobs.map (fun j => if j.id = id then applyJobPatch p j else j)).find?
      (fun j => j.id = id) with _ | uj <;> simp [h, saveJobStore]

theorem updateJob_pageImages (st : AppState) (id : String) (p : JobPatch) :
    (updateJob st id p).store.pageImages = st.store.pageImages := by
  unfold updateJob
  rcases h : (st.jobs.map (fun j => if j.id = id then applyJobPatch p j else j)).find?
      (fun j => j.id = id) with _ | uj <;> simp [h, saveJobStore]

theorem applyJobPatch_jobToPatch (x y : ProcessingJob) :
    applyJobPatch (jobToPatch x) y = x := rfl

/-- C7: immediately after the retry purge-and-reset, no item tagged with
the job's id remains in the working set or in the durable item store,
every job entry with that id reads `queued` with `processedPages = 0`,
a cleared error and the retry progress message, and the reset job is
handed back so the pipeline re-runs from scratch. -/
theorem claim_C7 (st : AppState) (jid : String) (job : ProcessingJob)
    (hfind : st.jobs.find? (fun j => j.id = jid) = some job) :
    (∀ i ∈ (handleRetryJob jid st).1.resultItems, ¬ i.jobId = some jid) ∧
    (∀ i ∈ (handleRetryJob jid st).1.store.items, ¬ i.jobId = some jid) ∧
    (∀ j ∈ (handleRetryJob jid st).1.jobs, j.id = jid →
      j.status = .queued ∧ j.processedPages = 0 ∧ j.errorMessage = none ∧
      j.progressMessage = "再処理待機中...") ∧
    (handleRetryJob jid st).2 =
      some { job with
             status := .queued
             processedPages := 0
             progressMessage := "再処理待機中..."
             errorMessage := none } := by
  unfold handleRetryJob
  rw [hfind]
  refine ⟨?_, ?_, ?_, rfl⟩
  · intro i hi
    rw [updateJob_resultItems] at hi
    simp only [List.mem_filter, decide_eq_true_eq] at hi
    exact hi.2
  · intro i hi
    rw [updateJob_storeItems] at hi
    simp only [deleteItemsByJobIdStore, List.mem_filter, decide_eq_true_eq] at hi
    intro hj
    exact hi.2 (List.mem_map.mpr ⟨i, List.mem_filter.mpr ⟨hi.1, by simp [hj]⟩, rfl⟩)
  · intro j hj hid
    rw [jobs_updateJob] at hj
    rcases List.mem_map.mp hj with ⟨orig, horig, heq⟩
    by_cases h : orig.id = jid
    · rw [if_pos h, applyJobPatch_jobToPatch] at heq
      rw [← heq]
      exact ⟨rfl, rfl, rfl, rfl⟩
    · rw [if_neg h] at heq
      rw [← heq] at hid
      exact absurd hid h

/-- C7 witness: retrying the fixture job purges its item and resets the
job record. -/
theorem claim_C7_witness :
    (∀ i ∈ (handleRetryJob "j1" fixtureRetryState).1.resultItems,
      ¬ i.jobId = some "j1") ∧
    (∀ i ∈ (handleRetryJob "j1" fixtureRetryState).1.store.items,
      ¬ i.jobId = some "j1") ∧
    (∀ j ∈ (handleRetryJob "j1" fixtureRetryState).1.jobs, j.id = "j1" →
      j.status = .queued ∧ j.processedPages = 0 ∧ j.errorMessage = none ∧
      j.progressMessage = "再処理待機中...") ∧
    (handleRetryJob "j1" fixtureRetryState).2 =
      some { fixtureJob with
             status := .queued
             processedPages := 0
             progressMessage := "再処理待機中..."
             errorMessage := none } :=
  claim_C7 fixtureRetryState "j1" fixtureJob (by decide)

theorem patchAndRecompute_touch_inv (p : ItemPatch) (it : OCRItem)
    (h : patchTouchesTotals p = true) :
    itemInvariant (patchAndRecompute p it) := by
  unfold patchAndRecompute
  rw [if_pos h]
  exact ⟨rfl, rfl⟩

theorem mapRawItemToOCRItem_inv (gid : String) (raw : RawItem) :
    itemInvariant (mapRawItemToOCRItem gid raw) :=
  ⟨rfl, rfl⟩

theorem stripItem_inv {it : OCRItem} (h : itemInvariant it) :
    itemInvariant (stripItem it) := h

theorem patchAndRecompute_safe_inv (p : ItemPatch) (it : OCRItem)
    (hs : patchSafe p) (hinv : itemInvariant it) :
    itemInvariant (patchAndRecompute p it) := by
  by_cases h : patchTouchesTotals p = true
  · exact patchAndRecompute_touch_inv p it h
  · have hdr : p.distributions = none ∧ p.reportedTotal = none := by
      revert h
      unfold patchTouchesTotals
      rcases p.distributions <;> rcases p.reportedTotal <;> simp
    have hci : p.calculatedTotal = none ∧ p.isCorrect = none := by
      rcases hc : p.calculatedTotal with _ | v
      · rcases hi : p.isCorrect with _ | w
        · exact ⟨rfl, rfl⟩
        · exact absurd (hs (Or.inr (by rw [hi]; rfl))) h
      · exact absurd (hs (Or.inl (by rw [hc]; rfl))) h
    unfold patchAndRecompute
    rw [if_neg h]
    unfold itemInvariant at hinv ⊢
    simp only [applyItemPatch, hdr.1, hdr.2, hci.1, hci.2, Option.getD_none]
    exact hinv

theorem itemUpdateStep_inv (iid : String) (p : ItemPatch) (hs : patchSafe p) :
    ∀ (items : List OCRItem) (acc : List OCRItem × Store),
    (∀ it ∈ items, itemInvariant it) →
    (∀ it ∈ acc.1, itemInvariant it) →
    (∀ it ∈ acc.2.items, itemInvariant it) →
    (∀ it ∈ (items.foldl (itemUpdateStep iid p) acc).1, itemInvariant it) ∧
    (∀ it ∈ (items.foldl (itemUpdateStep iid p) acc).2.items, itemInvariant it) := by
  intro items
  induction items with
  | nil => intro acc h1 h2 h3; exact ⟨h2, h3⟩
  | cons a rest ih =>
    intro acc h1 h2 h3
    have ha : itemInvariant a := h1 a (by simp)
    have hrest : ∀ it ∈ rest, itemInvariant it :=
      fun it hit => h1 it (List.mem_cons_of_mem a hit)
    rw [List.foldl_cons]
    by_cases hid : a.id ≠ iid
    · apply ih (itemUpdateStep iid p acc a) hrest
      · intro it hit
        unfold itemUpdateStep at hit
        rw [if_pos hid] at hit
        rcases List.mem_cons.mp hit with h | h
        · rw [h]; exact ha
        · exact h2 it h
      · intro it hit
        unfold itemUpdateStep at hit
        rw [if_pos hid] at hit
        exact h3 it hit
    · have hnew : itemInvariant (patchAndRecompute p a) :=
        patchAndRecompute_safe_inv p a hs ha
      apply ih (itemUpdateStep iid p acc a) hrest
      · intro it hit
        unfold itemUpdateStep at hit
        rw [if_neg hid] at hit
        rcases List.mem_cons.mp hit with h | h
        · rw [h]; exact hnew
        · exact h2 it h
      · intro it hit
        unfold itemUpdateStep at hit
        rw [if_neg hid] at hit
        simp only [saveItemStore] at hit
        rcases mem_putByKey OCRItem.id (stripItem (patchAndRecompute p a)) acc.2.items it hit with h | h
        · rw [h]; exact stripItem_inv hnew
        · exact h3 it h

theorem handleItemUpdate_inv (iid : String) (p : ItemPatch) (st : AppState)
    (hs : patchSafe p)
    (hres : ∀ it ∈ st.resultItems, itemInvariant it)
    (hsto : ∀ it ∈ st.store.items, itemInvariant it) :
    (∀ it ∈ (handleItemUpdate iid p st).resultItems, itemInvariant it) ∧
    (∀ it ∈ (handleItemUpdate iid p st).store.items, itemInvariant it) := by
  have h := itemUpdateStep_inv iid p hs st.resultItems ([], st.store)
    hres (by intro it hit; simp at hit) hsto
  unfold handleItemUpdate
  exact ⟨fun it hit => h.1 it (List.mem_reverse.mp hit), h.2⟩

/-- C2 (amended): whenever a patch touches distributions or the reported
total, both derived fields are recomputed unconditionally before the
item is persisted; freshly mapped items satisfy the derived-field
invariant; and the invariant is maintained, in the working set and in
the durable store alike, across any sequence of update-by-id patches in
which a patch writing `calculatedTotal` or `isCorrect` directly also
touches distributions or the reported total. -/
theorem claim_C2_amended :
    (∀ (p : ItemPatch) (it : OCRItem), patchTouchesTotals p = true →
      itemInvariant (patchAndRecompute p it) ∧
      (patchAndRecompute p it).calculatedTotal =
        distSum (applyItemPatch p it).distributions ∧
      (patchAndRecompute p it).isCorrect =
        decide ((patchAndRecompute p it).calculatedTotal =
          (applyItemPatch p it).reportedTotal)) ∧
    (∀ (gid : String) (raw : RawItem), itemInvariant (mapRawItemToOCRItem gid raw)) ∧
    (∀ (l : List (String × ItemPatch)) (st : AppState),
      (∀ pr ∈ l, patchSafe pr.2) →
      (∀ it ∈ st.resultItems, itemInvariant it) →
      (∀ it ∈ st.store.items, itemInvariant it) →
      (∀ it ∈ (applyItemUpdates l st).resultItems, itemInvariant it) ∧
      (∀ it ∈ (applyItemUpdates l st).store.items, itemInvariant it)) := by
  refine ⟨?_, mapRawItemToOCRItem_inv, ?_⟩
  · intro p it h
    refine ⟨patchAndRecompute_touch_inv p it h, ?_, ?_⟩
    · unfold patchAndRecompute
      rw [if_pos h]
    · unfold patchAndRecompute
      rw [if_pos h]
  · intro l
    induction l with
    | nil => intro st hsafe hres hsto; exact ⟨hres, hsto⟩
    | cons pr rest ih =>
      intro st hsafe hres hsto
      have h1 := handleItemUpdate_inv pr.1 pr.2 st (hsafe pr (by simp)) hres hsto
      exact ih (handleItemUpdate pr.1 pr.2 st)
        (fun q hq => hsafe q (List.mem_cons_of_mem pr hq)) h1.1 h1.2

/-- C2 counterexample: starting from a state whose single item satisfies
the invariant, the update-by-id patch `{ isCorrect := false }` (which
touches neither distributions nor the reported total) is persisted
without recomputation, leaving `isCorrect` out of sync with
`calculatedTotal == reportedTotal` — so the invariant does not hold
after arbitrary patch sequences, as the claim states. -/
theorem claim_C2_counterexample :
    (∀ it ∈ fixtureState.resultItems, itemInvariant it) ∧
    ¬ (∀ it ∈ (handleItemUpdate "a1" fixtureBadPatch fixtureState).resultItems,
        itemInvariant it) := by
  constructor
  · decide
  · decide

/-- C2 witness: a patch editing a distribution quantity recomputes both
derived fields before persisting (`calculatedTotal` becomes 5 and
`isCorrect` flips accordingly). -/
theorem claim_C2_witness :
    itemInvariant (patchAndRecompute { distributions := some [⟨"A", 5⟩] } fixtureItemA) ∧
    (patchAndRecompute { distributions := some [⟨"A", 5⟩] } fixtureItemA).calculatedTotal =
      distSum (applyItemPatch { distributions := some [⟨"A", 5⟩] } fixtureItemA).distributions ∧
    (patchAndRecompute { distributions := some [⟨"A", 5⟩] } fixtureItemA).isCorrect =
      decide ((patchAndRecompute { distributions := some [⟨"A", 5⟩] } fixtureItemA).calculatedTotal =
        (applyItemPatch { distributions := some [⟨"A", 5⟩] } fixtureItemA).reportedTotal) :=
  claim_C2_amended.1 { distributions := some [⟨"A", 5⟩] } fixtureItemA rfl

theorem settlePage_failure (job : ProcessingJob) (files : List JsFile)
    (s : AppState × Nat) (i : Nat) :
    settlePage job files s (i, .failure) = s := by
  unfold settlePage
  rcases h : files.get? i with _ | f <;> simp [h]

theorem settlePage_success (job : ProcessingJob) (files : List JsFile)
    (s : AppState × Nat) (i : Nat) (its : List OCRItem)
    (hi : i < files.length) :
    (settlePage job files s (i, .success its)).2 = s.2 + 1 ∧
    (∀ j ∈ (settlePage job files s (i, .success its)).1.jobs, j.id = job.id →
      j.processedPages = s.2 + 1 ∧
      j.progressMessage = progressMsg (s.2 + 1) files.length) ∧
    (settlePage job files s (i, .success its)).1.resultItems =
      s.1.resultItems ++ its.map (tagItem job
        (mkObjectURL (files.get ⟨i, hi⟩).blob) ((i : Int) + 1)) := by
  have hget : files.get? i = some (files.get ⟨i, hi⟩) := List.get?_eq_get hi
  unfold settlePage
  rw [hget]
  refine ⟨rfl, ?_, ?_⟩
  · intro j hj hid
    rw [jobs_updateJob] at hj
    rcases List.mem_map.mp hj with ⟨orig, horig, heq⟩
    by_cases h : orig.id = job.id
    · rw [if_pos h] at heq
      rw [← heq]
      exact ⟨rfl, rfl⟩
    · rw [if_neg h] at heq
      rw [← heq] at hid
      exact absurd hid h
  · rw [updateJob_resultItems]

theorem countSucc_cons (ev : Nat × PageOutcome) (l : List (Nat × PageOutcome)) :
    countSucc (ev :: l) =
      (if ev.2 = PageOutcome.failure then 0 else 1) + countSucc l := by
  unfold countSucc
  by_cases h : ev.2 = PageOutcome.failure
  · simp [List.filter_cons, h]
  · simp [List.filter_cons, h]
    omega

theorem countSucc_le_length (l : List (Nat × PageOutcome)) :
    countSucc l ≤ l.length :=
  List.length_filter_le _ l

theorem runSettlements_processed (job : ProcessingJob) (files : List JsFile) :
    ∀ (evs : List (Nat × PageOutcome)) (st : AppState) (c : Nat),
    (∀ ev ∈ evs, ev.1 < files.length) →
    jobsProcessed st job.id c →
    (runSettlements job files evs (st, c)).2 = c + countSucc evs ∧
    jobsProcessed (runSettlements job files evs (st, c)).1 job.id
      (c + countSucc evs) := by
  intro evs
  induction evs with
  | nil => intro st c hev hp; exact ⟨rfl, hp⟩
  | cons ev rest ih =>
    intro st c hev hp
    have hrest : ∀ e ∈ rest, e.1 < files.length :=
      fun e he => hev e (List.mem_cons_of_mem ev he)
    rcases ev with ⟨i, out⟩
    cases out with
    | failure =>
      have hstep : runSettlements job files ((i, PageOutcome.failure) :: rest) (st, c) =
          runSettlements job files rest (st, c) := by
        unfold runSettlements
        rw [List.foldl_cons, settlePage_failure]
      rw [hstep, countSucc_cons]
      simpa using ih st c hrest hp
    | success its =>
      have hi : i < files.length := hev (i, .success its) (by simp)
      obtain ⟨h2, hjobs, _⟩ := settlePage_success job files (st, c) i its hi
      have hstep : runSettlements job files ((i, PageOutcome.success its) :: rest) (st, c) =
          runSettlements job files rest (settlePage job files (st, c) (i, .success its)) := by
        unfold runSettlements
        rw [List.foldl_cons]
      have hpair : settlePage job files (st, c) (i, .success its) =
          ((settlePage job files (st, c) (i, .success its)).1, c + 1) := by
        rw [← h2]
      have hp1 : jobsProcessed (settlePage job files (st, c) (i, .success its)).1 job.id (c + 1) :=
        fun j hj hid => (hjobs j hj hid).1
      have := ih (settlePage job files (st, c) (i, .success its)).1 (c + 1) hrest hp1
      rw [hstep, hpair, countSucc_cons]
      have hne : ¬ ((i, PageOutcome.success its).2 = PageOutcome.failure) := by simp
      rw [if_neg hne]
      constructor
      · rw [this.1]; omega
      · have hc : c + 1 + countSucc rest = c + (1 + countSucc rest) := by omega
        rw [← hc]
        exact this.2

/-- C1 (amended): during the fan-out only a *successful* page settlement
increments `processedPages` (by exactly one) and refreshes the progress
message — a failed settlement leaves the state entirely unchanged, its
error being only logged — and after any prefix of at most `N`
settlements, `processedPages` equals the number of successes so far and
therefore never exceeds `N`. -/
theorem claim_C1_amended :
    (∀ (job : ProcessingJob) (files : List JsFile) (s : AppState × Nat) (i : Nat),
      settlePage job files s (i, .failure) = s) ∧
    (∀ (job : ProcessingJob) (files : List JsFile) (s : AppState × Nat)
        (i : Nat) (its : List OCRItem), i < files.length →
      (settlePage job files s (i, .success its)).2 = s.2 + 1 ∧
      (∀ j ∈ (settlePage job files s (i, .success its)).1.jobs, j.id = job.id →
        j.processedPages = s.2 + 1 ∧
        j.progressMessage = progressMsg (s.2 + 1) files.length)) ∧
    (∀ (job : ProcessingJob) (files : List JsFile)
        (evs : List (Nat × PageOutcome)) (st : AppState) (n : Nat),
      files.length = n → evs.length ≤ n →
      (∀ ev ∈ evs, ev.1 < files.length) →
      jobsProcessed st job.id 0 →
      ∀ k : Nat,
        jobsProcessed (runSettlements job files (evs.take k) (st, 0)).1 job.id
          (countSucc (evs.take k)) ∧
        countSucc (evs.take k) ≤ n) := by
  refine ⟨settlePage_failure, ?_, ?_⟩
  · intro job files s i its hi
    obtain ⟨h1, h2, _⟩ := settlePage_success job files s i its hi
    exact ⟨h1, h2⟩
  · intro job files evs st n hn hlen hev hp k
    have hevk : ∀ ev ∈ evs.take k, ev.1 < files.length :=
      fun ev hev2 => hev ev (List.mem_of_mem_take hev2)
    have h := runSettlements_processed job files (evs.take k) st 0 hevk hp
    constructor
    · have := h.2
      simpa using this
    · calc countSucc (evs.take k) ≤ (evs.take k).length := countSucc_le_length _
        _ ≤ evs.length := by rw [List.length_take]; omega
        _ ≤ n := hlen

/-- C1 counterexample: a failing page settlement leaves the state (and
in particular `processedPages` and the progress message) completely
unchanged — `processedPages` stays 0 instead of incrementing to 1, so a
failed completion does *not* increment the counter nor update the
message as the claim states. -/
theorem claim_C1_counterexample :
    settlePage fixtureJob [fixtureJob.file] (fixtureJobState, 0) (0, .failure) =
      (fixtureJobState, 0) ∧
    (settlePage fixtureJob [fixtureJob.file] (fixtureJobState, 0)
      (0, .failure)).1.jobs.map ProcessingJob.processedPages = [0] ∧
    ¬ ((settlePage fixtureJob [fixtureJob.file] (fixtureJobState, 0)
      (0, .failure)).1.jobs.map ProcessingJob.processedPages = [1]) ∧
    (settlePage fixtureJob [fixtureJob.file] (fixtureJobState, 0)
      (0, .failure)).1.jobs.map ProcessingJob.progressMessage = ["処理中 0/1"] := by
  refine ⟨?_, ?_, ?_, ?_⟩ <;> decide

/-- C1 witness: one successful settlement followed by one failed
settlement of a two-page job leaves `processedPages` at 1 (the number of
successes), within the bound 2. -/
theorem claim_C1_witness :
    jobsProcessed (runSettlements fixturePdfJob
        [⟨"doc_page_1.jpg", "image/jpeg", 11⟩, ⟨"doc_page_2.jpg", "image/jpeg", 12⟩]
        ([(0, .success [fixtureItemA]), (1, .failure)].take 2)
        ({ fixturePdfState with
            jobs := [{ fixturePdfJob with status := .processing, totalPages := 2 }] }, 0)).1
      fixturePdfJob.id
      (countSucc ([(0, .success [fixtureItemA]), (1, .failure)].take 2)) ∧
    countSucc ([(0, .success [fixtureItemA]), (1, .failure)].take 2) ≤ 2 :=
  claim_C1_amended.2.2 fixturePdfJob
    [⟨"doc_page_1.jpg", "image/jpeg", 11⟩, ⟨"doc_page_2.jpg", "image/jpeg", 12⟩]
    [(0, .success [fixtureItemA]), (1, .failure)]
    { fixturePdfState with
        jobs := [{ fixturePdfJob with status := .processing, totalPages := 2 }] }
    2 rfl (by decide) (by decide) (by decide) 2

/-- C3: whenever the conversion phase hands back a page list, the job is
terminalized as `completed` with `processedPages = totalPages` after the
settlement fold, whatever the individual page outcomes were; concretely,
a 2-page job with one failed page still completes with
`processedPages = 2` and only the successful page's single item in the
working set. -/
theorem claim_C3 (st0 : AppState) (job : ProcessingJob)
    (raster : Except String (List Nat)) (evs : List (Nat × PageOutcome))
    (files : List JsFile)
    (hconv : (runConversionPhase st0 job raster).2.1 = .ok files) :
    (∀ j ∈ (processJob st0 job raster evs).jobs, j.id = job.id →
      j.status = .completed ∧ j.processedPages = files.length) ∧
    ((processJob fixturePdfState fixturePdfJob (.ok [11, 12])
        [(0, .success [fixtureItemA]), (1, .failure)]).jobs.map
      (fun j => (j.id, j.status, j.processedPages, j.totalPages)) =
        [("j2", .completed, 2, 2)] ∧
     (processJob fixturePdfState fixturePdfJob (.ok [11, 12])
        [(0, .success [fixtureItemA]), (1, .failure)]).resultItems.map
      (fun i => (i.id, i.jobId, i.pageNumber)) = [("a1", some "j2", some 1)]) := by
  constructor
  · have hr : runConversionPhase st0 job raster =
        ((runConversionPhase st0 job raster).1, .ok files,
         (runConversionPhase st0 job raster).2.2) := by
      rw [← hconv]
    intro j hj hid
    unfold processJob at hj
    rw [hr] at hj
    rw [jobs_updateJob] at hj
    rcases List.mem_map.mp hj with ⟨orig, horig, heq⟩
    by_cases h : orig.id = job.id
    · rw [if_pos h] at heq
      rw [← heq]
      exact ⟨rfl, rfl⟩
    · rw [if_neg h] at heq
      rw [← heq] at hid
      exact absurd hid h
  · constructor
    · decide
    · decide

/-- C3 witness: for the fixture 2-page PDF job whose conversion yields
two fresh page files, the (unique) final job entry ends `completed` with
`processedPages = 2` after the mixed success/failure settlements. -/
theorem claim_C3_witness :
    fixturePdfJobDone.status = .completed ∧
    fixturePdfJobDone.processedPages = ([⟨"doc_page_1.jpg", "image/jpeg", 11⟩,
      ⟨"doc_page_2.jpg", "image/jpeg", 12⟩] : List JsFile).length :=
  (claim_C3 fixturePdfState fixturePdfJob (.ok [11, 12])
    [(0, .success [fixtureItemA]), (1, .failure)]
    [⟨"doc_page_1.jpg", "image/jpeg", 11⟩, ⟨"doc_page_2.jpg", "image/jpeg", 12⟩]
    (by decide)).1 fixturePdfJobDone (by decide) (by decide)

theorem collectStoredPages_eq (s : Store) (job : ProcessingJob) (n : Nat)
    (f : Nat → Nat)
    (h : ∀ i : Nat, i < n → getPageImage s.pageImages job.id i = some (f i))
    (hn : getPageImage s.pageImages job.id n = none) :
    ∀ (fuel start : Nat), start ≤ n → n - start < fuel →
    collectStoredPages s job fuel start =
      (List.range' start (n - start)).map
        (fun i => ⟨storedPageName job i, "image/jpeg", f i⟩) := by
  intro fuel
  induction fuel with
  | zero => intro start hs hf; omega
  | succ fuel ih =>
    intro start hs hf
    by_cases hsn : start = n
    · subst hsn
      unfold collectStoredPages
      rw [hn]
      simp
    · have hlt : start < n := by omega
      simp only [collectStoredPages, h start hlt]
      have hns : n - start = (n - (start + 1)) + 1 := by omega
      rw [hns]
      rw [show List.range' start ((n - (start + 1)) + 1) =
        start :: List.range' (start + 1) (n - (start + 1)) from rfl]
      rw [List.map_cons]
      rw [ih (start + 1) (by omega) (by omega)]

/-- C8: when a page image is already stored at index 0 for the job, the
conversion phase reconstructs the page list from the consecutively
stored images in index order, reports the rasterizer as not invoked
(its oracle result is never consulted), and leaves the stored page
images untouched. -/
theorem claim_C8 (st0 : AppState) (job : ProcessingJob)
    (raster : Except String (List Nat)) (n : Nat) (f : Nat → Nat)
    (hpos : 0 < n)
    (h : ∀ i : Nat, i < n → getPageImage st0.store.pageImages job.id i = some (f i))
    (hn : getPageImage st0.store.pageImages job.id n = none)
    (hlen : n ≤ st0.store.pageImages.length) :
    runConversionPhase st0 job raster =
      (updateJob st0 job.id
        { status := some .converting, progressMessage := some "ファイルを準備中..." },
       .ok ((List.range n).map (fun i => ⟨storedPageName job i, "image/jpeg", f i⟩)),
       false) ∧
    (runConversionPhase st0 job raster).1.store.pageImages = st0.store.pageImages ∧
    (runConversionPhase st0 job raster).2.2 = false := by
  have hpi : (updateJob st0 job.id
      { status := some .converting,
        progressMessage := some "ファイルを準備中..." }).store.pageImages =
      st0.store.pageImages := updateJob_pageImages st0 job.id _
  have h' : ∀ i : Nat, i < n → getPageImage (updateJob st0 job.id
      { status := some .converting,
        progressMessage := some "ファイルを準備中..." }).store.pageImages job.id i =
      some (f i) := by
    intro i hi
    rw [hpi]
    exact h i hi
  have hn' : getPageImage (updateJob st0 job.id
      { status := some .converting,
        progressMessage := some "ファイルを準備中..." }).store.pageImages job.id n =
      none := by
    rw [hpi]
    exact hn
  have h0 : getPageImage (updateJob st0 job.id
      { status := some .converting,
        progressMessage := some "ファイルを準備中..." }).store.pageImages job.id
      (0 : Int) = some (f 0) := by
    have := h' 0 hpos
    simpa using this
  have hcollect : collectStoredPages (updateJob st0 job.id
      { status := some .converting,
        progressMessage := some "ファイルを準備中..." }).store job
      ((updateJob st0 job.id
        { status := some .converting,
          progressMessage := some "ファイルを準備中..." }).store.pageImages.length + 1) 0 =
      (List.range n).map (fun i => ⟨storedPageName job i, "image/jpeg", f i⟩) := by
    have hb : n - 0 < (updateJob st0 job.id
        { status := some .converting,
          progressMessage := some "ファイルを準備中..." }).store.pageImages.length + 1 := by
      rw [hpi]
      omega
    have := collectStoredPages_eq _ job n f h' hn' _ 0 (by omega) hb
    simpa [List.range_eq_range'] using this
  have hmain : runConversionPhase st0 job raster =
      (updateJob st0 job.id
        { status := some .converting, progressMessage := some "ファイルを準備中..." },
       .ok ((List.range n).map (fun i => ⟨storedPageName job i, "image/jpeg", f i⟩)),
       false) := by
    unfold runConversionPhase conversionCore
    rw [h0, hcollect]
  refine ⟨hmain, ?_, ?_⟩
  · rw [hmain]
    exact hpi
  · rw [hmain]

/-- C8 witness: with images stored at indices 0 and 1 for job `jr`, the
page list is rebuilt from them in order, no rasterization happens and
the stored images survive unchanged. -/
theorem claim_C8_witness :
    runConversionPhase fixtureResumeState fixtureResumeJob (.error "unused") =
      (updateJob fixtureResumeState fixtureResumeJob.id
        { status := some .converting, progressMessage := some "ファイルを準備中..." },
       .ok ((List.range 2).map (fun i =>
         ⟨storedPageName fixtureResumeJob i, "image/jpeg", fixtureBlobAt i⟩)),
       false) ∧
    (runConversionPhase fixtureResumeState fixtureResumeJob
      (.error "unused")).1.store.pageImages = fixtureResumeState.store.pageImages ∧
    (runConversionPhase fixtureResumeState fixtureResumeJob
      (.error "unused")).2.2 = false :=
  claim_C8 fixtureResumeState fixtureResumeJob (.error "unused") 2 fixtureBlobAt
    (by decide) (by decide) (by decide) (by decide)

end AiOcr
